import Mathlib

/-!
Verification of the ChGK_NER harvesting scripts (`scraper_db.py`,
`scraper_gq.py`, `to_json_for_label_studio.py`) against their
natural-language specification.  The Python code is shallowly embedded:
network fetches become oracle functions, pandas tables become lists of
records, and machine-level details (HTTP, parquet I/O) are abstracted to
the values they deliver.
-/

namespace Chgk

/-- A decoded package (tournament) object from the db.chgk.info listing API,
with the fields `scraper_db.py` reads.  `playedAt` is the timestamp encoded
as an integer; `none` models a missing/null or unparseable value. -/
structure PackageInfo where
  id : Option Nat
  title : Option String
  playedAt : Option Int
  editors : Option (List String)
  info : Option String
deriving DecidableEq, Repr

/-- A decoded tour object, with the fields `process_tour` reads. -/
structure TourInfo where
  id : Option Nat
  title : Option String
  number : Option Nat
deriving DecidableEq, Repr

/-- A decoded question object, with the fields `process_tour` reads. -/
structure QuestionInfo where
  id : Option Nat
  number : Option Nat
  type : Option String
  question : Option String
  answer : Option String
  passCriteria : Option String
  authors : Option (List String)
  sources : Option (List String)
  comments : Option String
deriving DecidableEq, Repr

/-- One flattened output row, with exactly the keys of `flat_record` in
`process_tour`.  The `json.dumps` serialization of the list-valued fields
(`package_editors`, `authors`, `sources`) is injective, so the row stores
the lists themselves. -/
structure FlatRecord where
  package_id : Option Nat
  package_title : Option String
  package_played_at : Option Int
  package_editors : Option (List String)
  package_info : Option String
  tour_id : Nat
  tour_title : Option String
  tour_number : Option Nat
  question_id : Option Nat
  question_number : Option Nat
  question_type : Option String
  question_text : Option String
  answer : Option String
  pass_criteria : Option String
  authors : Option (List String)
  sources : Option (List String)
  comments : Option String
deriving DecidableEq, Repr

/-- Embedding of `process_tour` from `scraper_db.py`.  `fetchQuestions tid`
models the `fetch_data` call on the questions URL of tour `tid`
followed by the hydra member lookup: `none` stands for a failed fetch,
a falsy payload or a payload without the key, `some qs` for the member
list.  The guard `if not tour_id: return []` makes a missing id and the
(falsy) id 0 produce no records. -/
def process_tour (tour_info : TourInfo) (package_info : PackageInfo)
    (fetchQuestions : Nat → Option (List QuestionInfo)) : List FlatRecord :=
  match tour_info.id with
  | none => []
  | some 0 => []
  | some tid =>
    match fetchQuestions tid with
    | none => []
    | some qs =>
      qs.map fun q =>
        { package_id := package_info.id
          package_title := package_info.title
          package_played_at := package_info.playedAt
          package_editors := package_info.editors
          package_info := package_info.info
          tour_id := tid
          tour_title := tour_info.title
          tour_number := tour_info.number
          question_id := q.id
          question_number := q.number
          question_type := q.type
          question_text := q.question
          answer := q.answer
          pass_criteria := q.passCriteria
          authors := q.authors
          sources := q.sources
          comments := q.comments }

/-- Embedding of `process_package` from `scraper_db.py`.  `fetchTours pid`
models the package-tours fetch plus the hydra member lookup. -/
def process_package (package_info : PackageInfo)
    (fetchTours : Nat → Option (List TourInfo))
    (fetchQuestions : Nat → Option (List QuestionInfo)) : List FlatRecord :=
  match package_info.id with
  | none => []
  | some 0 => []
  | some pid =>
    match fetchTours pid with
    | none => []
    | some tours =>
      tours.flatMap fun t => process_tour t package_info fetchQuestions

/-- Phase-2 aggregation in `main`: the records of every processed package,
concatenated.  `as_completed` yields futures in a nondeterministic order,
which is modeled by quantifying over the order of `pkgs`. -/
def harvest (pkgs : List PackageInfo)
    (fetchTours : Nat → Option (List TourInfo))
    (fetchQuestions : Nat → Option (List QuestionInfo)) : List FlatRecord :=
  pkgs.flatMap fun p => process_package p fetchTours fetchQuestions

/-- Order on optional timestamps: `none` (pandas `NaT`) sorts below every
value, so that a descending sort puts it last (pandas `na_position`
default). -/
def paLe : Option Int → Option Int → Bool
  | none, _ => true
  | some _, none => false
  | some a, some b => decide (a ≤ b)

/-- The descending-by-`package_played_at` order used by
`df_final.sort_values(by="package_played_at", ascending=False)`. -/
def recGe (a b : FlatRecord) : Prop :=
  paLe b.package_played_at a.package_played_at = true

instance : DecidableRel recGe := fun a b =>
  inferInstanceAs (Decidable (_ = true))

theorem paLe_refl (a : Option Int) : paLe a a = true := by
  cases a <;> simp [paLe]

theorem paLe_total (a b : Option Int) : paLe a b = true ∨ paLe b a = true := by
  cases a <;> cases b <;> simp [paLe] <;> omega

theorem paLe_trans {a b c : Option Int} (h₁ : paLe a b = true)
    (h₂ : paLe b c = true) : paLe a c = true := by
  cases a <;> cases b <;> cases c <;> simp_all [paLe] <;> omega

theorem paLe_antisymm {a b : Option Int} (h₁ : paLe a b = true)
    (h₂ : paLe b a = true) : a = b := by
  cases a <;> cases b <;> simp_all [paLe] <;> omega

instance : IsTotal FlatRecord recGe :=
  ⟨fun a b => paLe_total b.package_played_at a.package_played_at⟩

instance : IsTrans FlatRecord recGe :=
  ⟨fun _ _ _ hab hbc => paLe_trans hbc hab⟩

/-- pandas `drop_duplicates(subset=["question_id"], keep="last")`: a row
survives iff no later row carries the same `question_id` (null keys compare
equal to each other, as NaN keys do in pandas `duplicated`).  The kept rows
stay in their original relative order. -/
def dedupKeepLast : List FlatRecord → List FlatRecord
  | [] => []
  | r :: rs =>
    if rs.any (fun s => decide (s.question_id = r.question_id)) then
      dedupKeepLast rs
    else r :: dedupKeepLast rs

/-- The merge step of `main` in `scraper_db.py`: concatenate the prior
table with the new records, `drop_duplicates` by `question_id` keeping the
last occurrence, then sort descending by `package_played_at`.  The sort is
instantiated here with a deterministic insertion sort, but the program
(default unstable quicksort kind) only guarantees a sorted permutation —
the contract `IsSortByPlayedAtDesc` below — so theorems about this
function rely on the sort only through permutation and membership facts,
never through its tie-breaking. -/
def mergeTables (prior newRecords : List FlatRecord) : List FlatRecord :=
  List.insertionSort recGe (dedupKeepLast (prior ++ newRecords))

/-- The persist phase of `main` in `scraper_db.py`.  `dfExisting` is the
prior table after its in-place `dropna` on `package_played_at`;
`lastPlayedAt` is the resume cursor string (`None` falsy, any computed
isoformat string truthy); the result is `none` when the script returns
without writing and `some t` when it writes table `t`. -/
def persistPhase (dfExisting : List FlatRecord) (lastPlayedAt : Option String)
    (newRecords : List FlatRecord) : Option (List FlatRecord) :=
  if newRecords.isEmpty then none
  else
    some (match lastPlayedAt with
      | some _ => mergeTables dfExisting newRecords
      | none => mergeTables [] newRecords)

/-- Python truthiness of the phase-1 stop test
`args.limit is not None and len(packages_to_process) >= args.limit`. -/
def limitHit : Option Nat → Nat → Bool
  | none, _ => false
  | some l, n => decide (l ≤ n)

/-- Embedding of the phase-1 listing loop of `main` in `scraper_db.py`
(lines 161-185).  `fetchPage p` models `fetch_data` on the listing URL for
page `p` followed by the hydra member lookup (`none` covers a failed
fetch, a falsy payload and a missing key).  The loop breaks when the limit
is hit or the member list is empty or absent; otherwise it accumulates the
members and moves to the next page.  `fuel` bounds the unrolling of the
`while True`; `reqs` records the pages actually requested.  Returns the
accumulated `packages_to_process` and the requested pages. -/
def listingLoop (fetchPage : Nat → Option (List PackageInfo))
    (limit : Option Nat) :
    Nat → Nat → List PackageInfo → List Nat → List PackageInfo × List Nat
  | 0, _, acc, reqs => (acc, reqs)
  | fuel + 1, page, acc, reqs =>
    if limitHit limit acc.length then (acc, reqs)
    else
      match fetchPage page with
      | none => (acc, reqs ++ [page])
      | some [] => (acc, reqs ++ [page])
      | some ms =>
        listingLoop fetchPage limit fuel (page + 1) (acc ++ ms) (reqs ++ [page])

/-- Outcome of one HTTP GET attempt, as distinguished by the `except`
clauses of the fetchers: a successful decoded payload (abstracted to a
number), a `requests.exceptions.ConnectionError`, or any other
`RequestException` / decode error. -/
inductive FetchOutcome where
  | success (payload : Nat)
  | connError
  | otherError
deriving DecidableEq, Repr

/-- `RETRIES` constant of `scraper_gq.py`. -/
def RETRIES : Nat := 3

/-- Embedding of the retry loop shared by `fetch_tournament_ids_from_page`
and `fetch_questions_from_pack` in `scraper_gq.py`: up to `RETRIES`
attempts; a connection error before the last attempt sleeps
`2 ** (attempt + 1)` seconds and retries, a connection error on the last
attempt gives up with `None`, any other request error gives up at once.
`oracle n` is the outcome of attempt `n`; `sleeps` accumulates the backoff
sleeps performed. -/
def fetchWithRetry (oracle : Nat → FetchOutcome) (attempt : Nat)
    (sleeps : List Nat) : Option Nat × List Nat :=
  match oracle attempt with
  | .success p => (some p, sleeps)
  | .otherError => (none, sleeps)
  | .connError =>
    if h : attempt < RETRIES - 1 then
      fetchWithRetry oracle (attempt + 1) (sleeps ++ [2 ^ (attempt + 1)])
    else (none, sleeps)
termination_by RETRIES - attempt
decreasing_by simp [RETRIES] at *; omega

/-- A whole fetch of one gotquestions.online URL: the retry loop started at
attempt 0 with no sleeps performed yet. -/
def fetchGq (oracle : Nat → FetchOutcome) : Option Nat × List Nat :=
  fetchWithRetry oracle 0 []

/-- Embedding of `fetch_data` from `scraper_db.py`: a single attempt with
no retry; both `RequestException` (which includes connection errors) and
`JSONDecodeError` are caught and yield `None`.  The `time.sleep(delay)`
before the request is a fixed inter-request delay, not a backoff sleep. -/
def fetch_data (oracle : Nat → FetchOutcome) : Option Nat :=
  match oracle 0 with
  | .success p => some p
  | .connError => none
  | .otherError => none

/-- JSON values as decoded by `json.loads`: object keys are strings. -/
inductive Json where
  | null
  | bool (b : Bool)
  | num (n : Int)
  | str (s : String)
  | arr (elems : List Json)
  | obj (fields : List (String × Json))
deriving Repr

/-- The Python exception raised by a failed subscript or iteration. -/
inductive PyErr where
  | keyError
  | indexError
  | typeError
deriving DecidableEq, Repr

/-- Python subscript `x[i]` with a non-negative integer: list indexing
(`IndexError` when out of range), dict lookup (`json.loads` dicts have
string keys only, so an integer subscript raises `KeyError`), string
indexing, and `TypeError` on anything else. -/
def getIdx : Json → Nat → Except PyErr Json
  | .arr l, i =>
    match l.get? i with
    | some v => .ok v
    | none => .error .indexError
  | .obj _, _ => .error .keyError
  | .str s, i =>
    match s.toList.get? i with
    | some c => .ok (.str (String.singleton c))
    | none => .error .indexError
  | _, _ => .error .typeError

/-- Python subscript `x["k"]`: dict lookup (`KeyError` when the key is
missing); `TypeError` on non-dicts, lists and strings included. -/
def getKey : Json → String → Except PyErr Json
  | .obj fs, k =>
    match fs.lookup k with
    | some v => .ok v
    | none => .error .keyError
  | _, _ => .error .typeError

/-- Python iteration `for x in v`: lists yield their elements, dicts their
keys, strings their characters; anything else raises `TypeError`. -/
def pyIter : Json → Except PyErr (List Json)
  | .arr l => .ok l
  | .obj fs => .ok (fs.map fun f => Json.str f.1)
  | .str s => .ok (s.toList.map fun c => Json.str (String.singleton c))
  | _ => .error .typeError

/-- Python truthiness of a decoded JSON value (`if not parsed_data`). -/
def jsonTruthy : Json → Bool
  | .null => false
  | .bool b => b
  | .num n => decide (n ≠ 0)
  | .str s => decide (s ≠ "")
  | .arr [] => false
  | .arr (_ :: _) => true
  | .obj [] => false
  | .obj (_ :: _) => true

/-- The fixed navigation `parsed_data[3]["children"][3]["packs"]`. -/
def navigatePacks (parsedData : Json) : Except PyErr Json := do
  let a ← getIdx parsedData 3
  let b ← getKey a "children"
  let c ← getIdx b 3
  getKey c "packs"

/-- The comprehension `[pack["id"] for pack in pack_object]`. -/
def extractIds (packObject : Json) : Except PyErr (List Json) := do
  let elems ← pyIter packObject
  elems.mapM fun p => getKey p "id"

/-- The parsing tail of `fetch_tournament_ids_from_page`
(`scraper_gq.py` lines 84-99) applied to the result of
`extract_json_from_script`; `none` input means that extractor already
returned `None` (which is falsy, so the `if not parsed_data` guard fires).
Output `.ok none` models `return None`, `.ok (some ids)` a successful
extraction, and `.error e` an exception escaping the function: the
`except (KeyError, IndexError)` clause catches only those two kinds. -/
def tournamentIdsFromParsed (parsedData : Option Json) :
    Except PyErr (Option (List Json)) :=
  match parsedData with
  | none => .ok none
  | some d =>
    if jsonTruthy d = false then .ok none
    else
      match (do
          let po ← navigatePacks d
          extractIds po : Except PyErr (List Json)) with
      | .ok ids => .ok (some ids)
      | .error .keyError => .ok none
      | .error .indexError => .ok none
      | .error .typeError => .error .typeError

/-- The query-string fragment built in `main` (`scraper_db.py` line 166):
the playedAt-before query parameter with the cursor value is appended when
`last_played_at` is truthy, and the fragment is empty otherwise. -/
def playedAtFilterParam : Option String → String
  | some t => "&playedAt[before]=" ++ t
  | none => ""

/-- The listing URL built in `main` (`scraper_db.py` line 169). -/
def packagesUrl (page : Nat) (lastPlayedAt : Option String) : String :=
  "http://www.db.chgk.info/packages?page=" ++ toString page ++
    "&order[playedAt]=desc" ++ playedAtFilterParam lastPlayedAt

/-- Modelled from the spec: the structured listing API is not part of this
repository.  Spec section 4.4 says the listing request "is asked for items
before a boundary when resuming"; a package is returned by a request whose
URL carries `playedAt[before]=T` iff its played-at is at most the boundary
(the platform treats the before date filter as inclusive). -/
def beforeFilterReturns (boundary : Int) (p : PackageInfo) : Bool :=
  paLe p.playedAt (some boundary)

/-- Python semantics of `lst[index]` for an in-range index: a negative
index counts from the end. -/
def pyWrapIndex (len : Nat) (index : Int) : Nat :=
  (if index < 0 then index + len else index).toNat

/-- Embedding of `safe_get` from `scraper_gq.py`:
`lst[index] if -len(lst) <= index < len(lst) else default`. -/
def safe_get {α : Type} (lst : List α) (index : Int) (default : α) : α :=
  if -(lst.length : Int) ≤ index ∧ index < (lst.length : Int) then
    lst.getD (pyWrapIndex lst.length index) default
  else default

/-! ### Claim C10: totality and semantics of `safe_get` -/

/-- C10: `safe_get lst index default` is a total function (the embedding
is a plain Lean function, so it never raises); it returns the element at
the Python index — negative indices counting from the end — exactly when
`-len(lst) <= index < len(lst)`, returns the default otherwise, and in
particular returns the default for every index on the empty list. -/
theorem safe_get_spec {α : Type} (lst : List α) (i : Int) (d : α) :
    (∀ h : -(lst.length : Int) ≤ i ∧ i < (lst.length : Int),
      ∃ hlt : pyWrapIndex lst.length i < lst.length,
        safe_get lst i d = lst.get ⟨pyWrapIndex lst.length i, hlt⟩)
    ∧ (¬(-(lst.length : Int) ≤ i ∧ i < (lst.length : Int)) →
        safe_get lst i d = d)
    ∧ (lst = [] → safe_get lst i d = d) := by
  refine ⟨?_, ?_, ?_⟩
  · intro h
    have hlt : pyWrapIndex lst.length i < lst.length := by
      unfold pyWrapIndex
      rcases h with ⟨h1, h2⟩
      split <;> omega
    refine ⟨hlt, ?_⟩
    unfold safe_get
    rw [if_pos h]
    simp [List.getD_eq_getElem?_getD, List.getElem?_eq_getElem hlt]
  · intro h
    unfold safe_get
    rw [if_neg h]
  · intro h
    subst h
    unfold safe_get
    simp

/-- Witness for `safe_get_spec`: a negative in-range index on a concrete
list, and an index on the empty list. -/
theorem safe_get_spec_witness :
    safe_get [10, 20, 30] (-1) (99 : Nat) = 30
    ∧ safe_get ([] : List Nat) 5 7 = 7 := by
  constructor
  · obtain ⟨hlt, he⟩ :=
      (safe_get_spec [10, 20, 30] (-1) 99).1 (by constructor <;> decide)
    rw [he]
    rfl
  · exact (safe_get_spec ([] : List Nat) 5 7).2.2 rfl

/-! ### Claim C8: zero new records means no write -/

/-- C8: when the harvest produces zero new records, `main` returns before
building the DataFrame, so no write happens — for every prior table and
every resume-cursor state the output file is untouched. -/
theorem persist_no_write_on_empty (dfExisting : List FlatRecord)
    (lastPlayedAt : Option String) :
    persistPhase dfExisting lastPlayedAt [] = none := rfl

/-! ### Claim C1: the resume filter -/

/-- A package played in 2019, strictly before the resume cursor. -/
def pkg2019 : PackageInfo :=
  { id := some 101, title := some "old pack", playedAt := some 2019,
    editors := none, info := none }

/-- A package played in 2021, strictly after the resume cursor. -/
def pkg2021 : PackageInfo :=
  { id := some 102, title := some "new pack", playedAt := some 2021,
    editors := none, info := none }

/-- C1 (code-bug evaluation): with resume cursor T (spec scenario:
`2020-01-01`, a package from 2019 and one from 2021) the listing URL the
code builds carries a `playedAt[before]=T` constraint, under which —
following the description of the external API filter in the spec — the
2019 package, like every previously stored row, IS returned and scheduled
for detail fetch, while the strictly newer 2021 package is NOT returned.
This is the opposite of the claimed constraint `played-at > T`, and it
contradicts the log line of the code itself announcing that only newer packages
will be downloaded. -/
theorem resume_filter_requests_old_packages :
    packagesUrl 1 (some "2020-01-01T00:00:00")
      = "http://www.db.chgk.info/packages?page=1&order[playedAt]=desc&playedAt[before]=2020-01-01T00:00:00"
    ∧ beforeFilterReturns 2020 pkg2019 = true
    ∧ beforeFilterReturns 2020 pkg2021 = false := by
  refine ⟨rfl, by decide, by decide⟩

/-! ### Claim C4: retry with exponential backoff -/

/-- The attempt oracle of the backoff scenario: connection errors on the
first two attempts, success with payload 7 on the third. -/
def twoFailOracle : Nat → FetchOutcome := fun n =>
  if n < 2 then .connError else .success 7

/-- C4 (counterexample): the claim quantifies over every fetch, but
the Pipeline A fetcher `fetch_data` performs no retry at all — on the
scenario "connection error twice, success on the third attempt" it returns
`None` instead of the successful payload. -/
theorem fetch_data_does_not_retry :
    fetch_data twoFailOracle = none
    ∧ fetch_data twoFailOracle ≠ some 7 := by
  refine ⟨rfl, by decide⟩

/-- C4 (amended): in the Pipeline B fetchers a connection error is retried
up to `RETRIES = 3` attempts, sleeping `2 ** (attempt + 1)` seconds before
each retry (exponential backoff with base 1: the retries sleep `base*2`
and `base*4` seconds).  When the first two attempts raise connection
errors: a success on the third attempt returns its payload having slept
`2 + 4 = base*2 + base*4` seconds cumulatively, and a third connection
error makes the fetch return `None` so the unit is skipped.  The Pipeline A
`fetch_data`, by contrast, never retries: any request error yields `None`
at once. -/
theorem fetchGq_backoff (oracle : Nat → FetchOutcome)
    (h0 : oracle 0 = .connError) (h1 : oracle 1 = .connError) :
    (∀ p, oracle 2 = .success p → fetchGq oracle = (some p, [2, 4]))
    ∧ (oracle 2 = .connError → fetchGq oracle = (none, [2, 4]))
    ∧ fetch_data oracle = none := by
  have step0 : fetchGq oracle = fetchWithRetry oracle 1 [2] := by
    rw [fetchGq, fetchWithRetry, h0]
    norm_num [RETRIES]
  have step1 : fetchWithRetry oracle 1 [2] = fetchWithRetry oracle 2 [2, 4] := by
    rw [fetchWithRetry, h1]
    norm_num [RETRIES]
  refine ⟨?_, ?_, ?_⟩
  · intro p h2
    rw [step0, step1, fetchWithRetry, h2]
  · intro h2
    rw [step0, step1, fetchWithRetry, h2]
    norm_num [RETRIES]
  · rw [fetch_data, h0]

/-- Witness for `fetchGq_backoff` at the concrete two-failure oracle. -/
theorem fetchGq_backoff_witness :
    fetchGq twoFailOracle = (some 7, [2, 4])
    ∧ fetch_data twoFailOracle = none :=
  ⟨(fetchGq_backoff twoFailOracle rfl rfl).1 7 rfl,
   (fetchGq_backoff twoFailOracle rfl rfl).2.2⟩

/-! ### Claim C9: schema-drift resilience of the embedded-data extractor -/

/-- C9 (counterexample): a decoded blob of an unexpected type — the JSON
number 42, which certainly does not contain the fixed nested path
`[3]["children"][3]["packs"]` — makes the first subscript raise
`TypeError`, which the `except (KeyError, IndexError)` clause does not
catch: the exception propagates out of the extractor instead of an
empty/None result being returned. -/
theorem schema_drift_typeerror_escapes :
    tournamentIdsFromParsed (some (Json.num 42))
      = Except.error PyErr.typeError := rfl

/-- C9 (amended): the extractor returns `None` without raising whenever
the embedded blob fails to unescape/decode (`extract_json_from_script`
already returned `None`), the decoded blob is falsy, or the fixed-path
navigation and id extraction fail with `KeyError` or `IndexError` (missing
key or out-of-range index); only a `TypeError` raised by subscripting or
iterating a wrong-typed intermediate value escapes the extractor. -/
theorem tournament_ids_resilient (parsedData : Option Json)
    (h : ∀ d, parsedData = some d →
      (do
        let po ← navigatePacks d
        extractIds po : Except PyErr (List Json)) ≠ .error .typeError) :
    ∃ r : Option (List Json), tournamentIdsFromParsed parsedData = .ok r := by
  match parsedData with
  | none => exact ⟨none, rfl⟩
  | some d =>
    rw [tournamentIdsFromParsed]
    by_cases ht : jsonTruthy d = false
    · rw [if_pos ht]
      exact ⟨none, rfl⟩
    · rw [if_neg ht]
      rcases hnav : (do
          let po ← navigatePacks d
          extractIds po : Except PyErr (List Json)) with e | ids
      · cases e with
        | keyError => exact ⟨none, rfl⟩
        | indexError => exact ⟨none, rfl⟩
        | typeError => exact absurd hnav (h d rfl)
      · exact ⟨some ids, rfl⟩

/-- Witness for `tournament_ids_resilient`: a blob whose fixed path stops
at a missing children key (a `KeyError`), so the extractor returns
`None` instead of raising. -/
theorem tournament_ids_resilient_witness :
    ∃ r : Option (List Json),
      tournamentIdsFromParsed
        (some (Json.arr [.null, .null, .null, .obj []])) = .ok r :=
  tournament_ids_resilient _ (fun d hd => by
    cases hd
    intro hc
    rw [show (do
        let po ← navigatePacks (Json.arr [.null, .null, .null, .obj []])
        extractIds po : Except PyErr (List Json))
      = Except.error PyErr.keyError from rfl] at hc
    exact PyErr.noConfusion (Except.error.inj hc))

/-! ### Claim C5: empty-page termination of the listing phase -/

/-- General form of the listing-loop request trace: with no limit, if
every page from `page` up to (excluding) `N` has members and page `N` is
empty, the loop requests exactly the pages `page, …, N` and stops. -/
theorem listingLoop_requests (ms : Nat → List PackageInfo) (N : Nat)
    (hN : ms N = []) :
    ∀ fuel page acc reqs, page ≤ N → N + 1 - page ≤ fuel →
      (∀ p, page ≤ p → p < N → ms p ≠ []) →
      (listingLoop (fun p => some (ms p)) none fuel page acc reqs).2
        = reqs ++ List.range' page (N + 1 - page) := by
  intro fuel
  induction fuel with
  | zero => intro page acc reqs h1 h2 _; omega
  | succ fuel ih =>
    intro page acc reqs hpage hfuel hne
    by_cases hp : page = N
    · subst hp
      simp [listingLoop, limitHit, hN, List.range']
    · have hlt : page < N := lt_of_le_of_ne hpage hp
      rcases hms : ms page with _ | ⟨x, xs⟩
      · exact absurd hms (hne page le_rfl hlt)
      · simp only [listingLoop, limitHit, hms]
        rw [if_neg (by simp)]
        rw [ih (page + 1) (acc ++ (x :: xs)) (reqs ++ [page]) (by omega)
          (by omega) (fun p hp1 hp2 => hne p (by omega) hp2)]
        rw [List.append_assoc]
        have hsplit : N + 1 - page = (N - page) + 1 := by omega
        rw [hsplit, List.range'_succ]
        have : N + 1 - (page + 1) = N - page := by omega
        rw [this]
        rfl

/-- C5: when page `N` is the first listing page whose member collection is
empty (pages `1, …, N-1` are non-empty), the phase-1 loop of `main` issues
requests for exactly the pages `1, …, N`: it has fetched the `N-1`
non-empty pages, terminates on seeing the empty collection of page `N`,
and fetches zero further pages after it. -/
theorem empty_page_terminates (ms : Nat → List PackageInfo) (N fuel : Nat)
    (hN1 : 1 ≤ N) (hfuel : N ≤ fuel)
    (hne : ∀ p, 1 ≤ p → p < N → ms p ≠ []) (hN : ms N = []) :
    (listingLoop (fun p => some (ms p)) none fuel 1 [] []).2
      = List.range' 1 N := by
  have h := listingLoop_requests ms N hN fuel 1 [] [] hN1 (by omega) hne
  simpa using h

/-- Witness for `empty_page_terminates`: two non-empty pages, empty page 3;
the loop requests pages 1, 2, 3 and no more. -/
theorem empty_page_terminates_witness :
    (listingLoop (fun p => some (if p < 3 then [pkg2021] else []))
        none 5 1 [] []).2 = List.range' 1 3 :=
  empty_page_terminates _ 3 5 (by omega) (by omega)
    (fun p _ h2 => by simp [if_pos h2])
    (by simp)

/-! ### Claim C7: the `--limit` flag -/

/-- C7 (counterexample): with `--limit 1` the loop checks the limit only
before fetching a page and then extends the accumulator by the whole
member collection of that page, so one two-member page drives the count of
packages scheduled for detail processing to 2, exceeding the limit 1. -/
theorem limit_exceeded :
    ¬ ((listingLoop (fun _ => some [pkg2019, pkg2021])
        (some 1) 5 1 [] []).1.length ≤ 1) := by
  have h : (listingLoop (fun _ => some [pkg2019, pkg2021])
      (some 1) 5 1 [] []).1.length = 2 := rfl
  omega

/-- Helper invariant for the amended C7: once the accumulator is below the
page-size-padded bound, it stays below it, because a page is only fetched
while fewer than `L` packages are accumulated. -/
theorem listingLoop_length_invariant
    (fetchPage : Nat → Option (List PackageInfo)) (L S : Nat)
    (hS : ∀ p ms, fetchPage p = some ms → ms.length ≤ S) :
    ∀ fuel page acc reqs, acc.length ≤ L - 1 + S → 1 ≤ L →
      ((listingLoop fetchPage (some L) fuel page acc reqs).1).length
        ≤ L - 1 + S := by
  intro fuel
  induction fuel with
  | zero => intro page acc reqs h _; simpa [listingLoop] using h
  | succ fuel ih =>
    intro page acc reqs hacc hL
    by_cases hl : limitHit (some L) acc.length = true
    · simpa [listingLoop, hl] using hacc
    · have hlt : acc.length < L := by
        simp [limitHit] at hl
        omega
      rcases hfp : fetchPage page with _ | ms
      · simpa [listingLoop, hl, hfp] using hacc
      · rcases ms with _ | ⟨x, xs⟩
        · simpa [listingLoop, hl, hfp] using hacc
        · simp only [listingLoop, hfp]
          rw [if_neg hl]
          apply ih
          · have hxs : (x :: xs).length ≤ S := hS page (x :: xs) hfp
            simp only [List.length_append]
            omega
          · exact hL

/-- C7 (amended): the listing phase stops fetching as soon as the
accumulated count reaches `L`; because the check happens before each page
fetch, the count can overshoot `L` by less than one page: when every
listing page delivers at most `S` members, the number of packages
collected for detail processing is at most `L - 1 + S` (it is not,
as claimed, bounded by `L` itself — see the counterexample). -/
theorem limit_bounds_accumulation
    (fetchPage : Nat → Option (List PackageInfo)) (L S fuel : Nat)
    (hL : 1 ≤ L)
    (hS : ∀ p ms, fetchPage p = some ms → ms.length ≤ S) :
    ((listingLoop fetchPage (some L) fuel 1 [] []).1).length
      ≤ L - 1 + S :=
  listingLoop_length_invariant fetchPage L S hS fuel 1 [] []
    (by simp) hL

/-- Witness for `limit_bounds_accumulation`: limit 1, pages of size 2; the
collected count stays at most `1 - 1 + 2 = 2`. -/
theorem limit_bounds_accumulation_witness :
    ((listingLoop (fun _ => some [pkg2019, pkg2021])
        (some 1) 5 1 [] []).1).length ≤ 1 - 1 + 2 :=
  limit_bounds_accumulation _ 1 2 5 (by omega)
    (fun p ms h => by cases h; rfl)

/-! ### Lemmas about `dedupKeepLast` -/

theorem getLast?_cons_of_ne_nil {α : Type} (a : α) {l : List α}
    (h : l ≠ []) : (a :: l).getLast? = l.getLast? := by
  cases l with
  | nil => exact absurd rfl h
  | cons b t => exact List.getLast?_cons_cons

/-- Deduplication keeps, for each question id, exactly the last row that
carries it (and nothing when no row does). -/
theorem dedupKeepLast_filter (qid : Option Nat) :
    ∀ l : List FlatRecord,
      (dedupKeepLast l).filter (fun r => decide (r.question_id = qid))
        = ((l.filter (fun r => decide (r.question_id = qid))).getLast?).toList := by
  intro l
  induction l with
  | nil => rfl
  | cons r rs ih =>
    by_cases hdup : rs.any (fun s => decide (s.question_id = r.question_id)) = true
    · simp only [dedupKeepLast]
      rw [if_pos hdup, ih]
      by_cases hr : (decide (r.question_id = qid)) = true
      · have hq : r.question_id = qid := of_decide_eq_true hr
        obtain ⟨s, hs, hsq⟩ := List.any_eq_true.mp hdup
        have hfil : rs.filter (fun x => decide (x.question_id = qid)) ≠ [] := by
          intro hnil
          exact List.filter_eq_nil_iff.mp hnil s hs
            (decide_eq_true ((of_decide_eq_true hsq).trans hq))
        simp only [List.filter_cons]
        rw [if_pos hr, getLast?_cons_of_ne_nil _ hfil]
      · simp only [List.filter_cons]
        rw [if_neg hr]
    · simp only [dedupKeepLast]
      rw [if_neg hdup]
      by_cases hr : (decide (r.question_id = qid)) = true
      · have hq : r.question_id = qid := of_decide_eq_true hr
        have hfil : rs.filter (fun x => decide (x.question_id = qid)) = [] := by
          apply List.filter_eq_nil_iff.mpr
          intro s hs hps
          apply hdup
          exact List.any_eq_true.mpr
            ⟨s, hs, decide_eq_true ((of_decide_eq_true hps).trans hq.symm)⟩
        have hfil2 : (dedupKeepLast rs).filter
            (fun x => decide (x.question_id = qid)) = [] := by
          rw [ih, hfil]; rfl
        simp only [List.filter_cons]
        rw [if_pos hr, if_pos hr, hfil2, hfil]
        rfl
      · simp only [List.filter_cons]
        rw [if_neg hr, if_neg hr, ih]

/-- Deduplicating a concatenation: the left block keeps its survivors whose
ids do not reappear on the right, followed by the deduplicated right
block. -/
theorem dedupKeepLast_append (X N : List FlatRecord) :
    dedupKeepLast (X ++ N)
      = (dedupKeepLast X).filter
          (fun x => !(N.any (fun s => decide (s.question_id = x.question_id))))
        ++ dedupKeepLast N := by
  induction X with
  | nil => simp [dedupKeepLast]
  | cons x X ih =>
    simp only [List.cons_append, dedupKeepLast, List.append_eq, List.any_append]
    by_cases hX : X.any (fun s => decide (s.question_id = x.question_id)) = true
    · rw [hX]
      simp only [Bool.true_or, if_true]
      exact ih
    · by_cases hN : N.any (fun s => decide (s.question_id = x.question_id)) = true
      · rw [hN]
        simp only [Bool.or_true, if_true]
        rw [if_neg hX, ih]
        simp only [List.filter_cons]
        rw [if_neg (by simp [hN])]
      · have hor : ¬ ((X.any (fun s => decide (s.question_id = x.question_id))
            || N.any (fun s => decide (s.question_id = x.question_id)))
              = true) := by
          simp only [Bool.or_eq_true]
          rintro (h | h)
          · exact hX h
          · exact hN h
        rw [if_neg hor, if_neg hX, ih]
        simp only [List.filter_cons]
        rw [if_pos (by simp [hN]), List.cons_append]

theorem mem_dedupKeepLast {r : FlatRecord} :
    ∀ {l : List FlatRecord}, r ∈ dedupKeepLast l → r ∈ l := by
  intro l
  induction l with
  | nil => intro h; exact h
  | cons x xs ih =>
    intro h
    by_cases hx : xs.any (fun s => decide (s.question_id = x.question_id)) = true
    · simp only [dedupKeepLast] at h
      rw [if_pos hx] at h
      exact List.mem_cons_of_mem x (ih h)
    · simp only [dedupKeepLast] at h
      rw [if_neg hx] at h
      rcases List.mem_cons.mp h with h | h
      · exact h ▸ List.mem_cons_self x xs
      · exact List.mem_cons_of_mem x (ih h)

/-- The deduplicated table has pairwise distinct question ids. -/
theorem dedupKeepLast_pairwise :
    ∀ l : List FlatRecord,
      (dedupKeepLast l).Pairwise (fun a b => a.question_id ≠ b.question_id) := by
  intro l
  induction l with
  | nil => exact List.Pairwise.nil
  | cons x xs ih =>
    by_cases hx : xs.any (fun s => decide (s.question_id = x.question_id)) = true
    · simp only [dedupKeepLast]
      rw [if_pos hx]
      exact ih
    · simp only [dedupKeepLast]
      rw [if_neg hx]
      refine List.Pairwise.cons ?_ ih
      intro b hb heq
      exact hx (List.any_eq_true.mpr
        ⟨b, mem_dedupKeepLast hb, decide_eq_true heq.symm⟩)

/-- A table whose ids are already pairwise distinct is left unchanged by
deduplication. -/
theorem dedupKeepLast_eq_self :
    ∀ l : List FlatRecord,
      l.Pairwise (fun a b => a.question_id ≠ b.question_id) →
      dedupKeepLast l = l := by
  intro l
  induction l with
  | nil => intro _; rfl
  | cons x xs ih =>
    intro hp
    rcases List.pairwise_cons.mp hp with ⟨hx, hxs⟩
    have hany : ¬ (xs.any (fun s => decide (s.question_id = x.question_id)) = true) := by
      intro hc
      obtain ⟨s, hs, hsq⟩ := List.any_eq_true.mp hc
      exact hx s hs (of_decide_eq_true hsq).symm
    simp only [dedupKeepLast]
    rw [if_neg hany, ih hxs]


/-! ### Claim C2: dedup correctness of the merge -/

/-- C2: for every prior table, new-record set and question id, the merged
rows with that id in the merged table are exactly one copy of the last-occurring
record with that id in the concatenation prior-then-new (and no row at all
when the id never occurs).  In particular no two persisted rows share a
question id, and on a collision the retained row is the most recently
fetched one. -/
theorem merge_keeps_last_per_id (prior newRecords : List FlatRecord)
    (qid : Option Nat) :
    (mergeTables prior newRecords).filter
        (fun r => decide (r.question_id = qid))
      = (((prior ++ newRecords).filter
          (fun r => decide (r.question_id = qid))).getLast?).toList := by
  have hperm := (List.perm_insertionSort recGe
    (dedupKeepLast (prior ++ newRecords))).filter
      (fun r => decide (r.question_id = qid))
  rw [dedupKeepLast_filter] at hperm
  cases hc : ((prior ++ newRecords).filter
      (fun r => decide (r.question_id = qid))).getLast? with
  | none =>
    rw [hc] at hperm
    exact hperm.eq_nil
  | some x =>
    rw [hc] at hperm
    exact List.perm_singleton.mp hperm

/-! ### Claim C3: idempotence of the merge -/

/-- The contract of the final sort in `main` of `scraper_db.py`
(`sort_values` on `package_played_at`, descending): the output is a
permutation of the input that is sorted descending by played-at.  The
default quicksort kind of `sort_values` is not stable, so the program
guarantees nothing about the relative order of rows with equal played-at
— any compliant outcome may be produced on any run. -/
def IsSortByPlayedAtDesc (input output : List FlatRecord) : Prop :=
  output.Perm input ∧ output.Sorted recGe

instance (input output : List FlatRecord) :
    Decidable (IsSortByPlayedAtDesc input output) :=
  inferInstanceAs (Decidable (_ ∧ _))

/-- A row with question id 1 and played-at 5. -/
def rowTieA : FlatRecord :=
  { package_id := some 1, package_title := none, package_played_at := some 5,
    package_editors := none, package_info := none, tour_id := 1,
    tour_title := none, tour_number := none, question_id := some 1,
    question_number := some 1, question_type := none, question_text := none,
    answer := none, pass_criteria := none, authors := none, sources := none,
    comments := none }

/-- A row with question id 2 and the same played-at 5, tying with
`rowTieA` under the sort key (rows of one package always share their
played-at). -/
def rowTieB : FlatRecord :=
  { package_id := some 2, package_title := none, package_played_at := some 5,
    package_editors := none, package_info := none, tour_id := 1,
    tour_title := none, tour_number := none, question_id := some 2,
    question_number := some 2, question_type := none, question_text := none,
    answer := none, pass_criteria := none, authors := none, sources := none,
    comments := none }

/-- C3 (counterexample): the sort of the merge step guarantees only a
sorted permutation — its default quicksort kind is unstable — and rows tie
on played-at whenever they come from the same package.  With prior table
`[rowTieA]` and new records `[rowTieB]`, the table `[rowTieA, rowTieB]` is
a compliant outcome of the first merge, and re-merging it with the same
new records admits the compliant outcome `[rowTieB, rowTieA]`, a different
table: applying the merge twice need not yield an identical final table,
refuting the claim as stated. -/
theorem merge_idempotent_counterexample :
    IsSortByPlayedAtDesc (dedupKeepLast ([rowTieA] ++ [rowTieB]))
        [rowTieA, rowTieB]
    ∧ IsSortByPlayedAtDesc (dedupKeepLast ([rowTieA, rowTieB] ++ [rowTieB]))
        [rowTieB, rowTieA]
    ∧ [rowTieB, rowTieA] ≠ [rowTieA, rowTieB] := by
  decide

/-- C3 (amended): the merge step is idempotent up to the tie-breaking that
the unstable sort leaves unspecified: for every prior table and new-record
set, if `M` is any compliant result of the merge (concatenate, dedup by
question id keeping last, sort descending by played-at) and `M2` any
compliant result of merging `M` again with the same new records, then `M2`
is a permutation of `M` — the identical multiset of rows, so no duplicate
growth — and agrees with `M` on the rows of every question id; both are
sorted descending, and only the relative order of rows with equal
played-at may differ. -/
theorem merge_idempotent_up_to_ties
    (prior newRecords M M2 : List FlatRecord)
    (h1 : IsSortByPlayedAtDesc (dedupKeepLast (prior ++ newRecords)) M)
    (h2 : IsSortByPlayedAtDesc (dedupKeepLast (M ++ newRecords)) M2) :
    M2.Perm M
    ∧ ∀ qid, M2.filter (fun r => decide (r.question_id = qid))
        = M.filter (fun r => decide (r.question_id = qid)) := by
  obtain ⟨hp1, hs1⟩ := h1
  obtain ⟨hp2, hs2⟩ := h2
  have hMnodup : M.Pairwise (fun a b => a.question_id ≠ b.question_id) :=
    (hp1.pairwise_iff (fun h => Ne.symm h)).mpr
      (dedupKeepLast_pairwise (prior ++ newRecords))
  have hd2 : dedupKeepLast (M ++ newRecords)
      = M.filter (fun x => !(newRecords.any
          (fun s => decide (s.question_id = x.question_id))))
        ++ dedupKeepLast newRecords := by
    rw [dedupKeepLast_append M newRecords, dedupKeepLast_eq_self M hMnodup]
  have hqM : (M.filter (fun x => !(newRecords.any
      (fun s => decide (s.question_id = x.question_id))))).Perm
        ((dedupKeepLast (prior ++ newRecords)).filter
          (fun x => !(newRecords.any
            (fun s => decide (s.question_id = x.question_id))))) :=
    hp1.filter _
  have hfd : (dedupKeepLast (prior ++ newRecords)).filter
      (fun x => !(newRecords.any
        (fun s => decide (s.question_id = x.question_id))))
      = (dedupKeepLast prior).filter
          (fun x => !(newRecords.any
            (fun s => decide (s.question_id = x.question_id)))) := by
    rw [dedupKeepLast_append prior newRecords, List.filter_append]
    have hA : (((dedupKeepLast prior).filter (fun x => !(newRecords.any
        (fun s => decide (s.question_id = x.question_id))))).filter
          (fun x => !(newRecords.any
            (fun s => decide (s.question_id = x.question_id)))))
        = ((dedupKeepLast prior).filter (fun x => !(newRecords.any
            (fun s => decide (s.question_id = x.question_id))))) :=
      List.filter_eq_self.mpr (fun a ha => (List.mem_filter.mp ha).2)
    have hB : ((dedupKeepLast newRecords).filter
        (fun x => !(newRecords.any
          (fun s => decide (s.question_id = x.question_id))))) = [] := by
      apply List.filter_eq_nil_iff.mpr
      intro a ha hqa
      have hmem : a ∈ newRecords := mem_dedupKeepLast ha
      have hany : newRecords.any
          (fun s => decide (s.question_id = a.question_id)) = true :=
        List.any_eq_true.mpr ⟨a, hmem, decide_eq_true rfl⟩
      rw [hany] at hqa
      exact Bool.false_ne_true (by simpa using hqa)
    rw [hA, hB, List.append_nil]
  have hchain : M2.Perm M := by
    refine hp2.trans ?_
    rw [hd2]
    refine ((hqM.append_right (dedupKeepLast newRecords)).trans ?_)
    rw [hfd, ← dedupKeepLast_append prior newRecords]
    exact hp1.symm
  refine ⟨hchain, fun qid => ?_⟩
  have hMf : M.filter (fun r => decide (r.question_id = qid))
      = (((prior ++ newRecords).filter
          (fun r => decide (r.question_id = qid))).getLast?).toList := by
    have h := hp1.filter (fun r => decide (r.question_id = qid))
    rw [dedupKeepLast_filter] at h
    rcases hc : (((prior ++ newRecords).filter
        (fun r => decide (r.question_id = qid))).getLast?) with _ | x
    · rw [hc] at h
      rw [hc]
      exact h.eq_nil
    · rw [hc] at h
      rw [hc]
      exact List.perm_singleton.mp h
  have h2f := hchain.filter (fun r => decide (r.question_id = qid))
  rw [hMf] at h2f ⊢
  rcases hc : (((prior ++ newRecords).filter
      (fun r => decide (r.question_id = qid))).getLast?) with _ | x
  · rw [hc] at h2f ⊢
    exact h2f.eq_nil
  · rw [hc] at h2f ⊢
    exact List.perm_singleton.mp h2f

/-- Witness for `merge_idempotent_up_to_ties`: at the tie scenario both
sort outcomes are compliant, and the twice-merged table is a permutation
of the once-merged one that agrees with it on question id 1. -/
theorem merge_idempotent_up_to_ties_witness :
    ([rowTieB, rowTieA] : List FlatRecord).Perm [rowTieA, rowTieB]
    ∧ ([rowTieB, rowTieA] : List FlatRecord).filter
        (fun r => decide (r.question_id = some 1))
      = ([rowTieA, rowTieB] : List FlatRecord).filter
        (fun r => decide (r.question_id = some 1)) := by
  have h := merge_idempotent_up_to_ties [rowTieA] [rowTieB]
    [rowTieA, rowTieB] [rowTieB, rowTieA] (by decide) (by decide)
  exact ⟨h.1, h.2 (some 1)⟩

/-! ### Claim C6: non-null question ids in the persisted table -/

/-- Sample tour object. -/
def tourSample : TourInfo :=
  { id := some 5, title := some "Tour 1", number := some 1 }

/-- Sample package object. -/
def pkgSample : PackageInfo :=
  { id := some 7, title := some "Pack", playedAt := some 2022,
    editors := some ["E"], info := none }

/-- A question object with no "id" field. -/
def questionNoId : QuestionInfo :=
  { id := none, number := some 1, type := some "ЧГК",
    question := some "Q?", answer := some "A", passCriteria := none,
    authors := some ["author"], sources := some ["src"], comments := none }

/-- A question object carrying an id. -/
def questionWithId : QuestionInfo :=
  { id := some 11, number := some 1, type := some "ЧГК",
    question := some "Q?", answer := some "A", passCriteria := none,
    authors := some ["author"], sources := none, comments := none }

/-- C6 (counterexample): `process_tour` copies `question_info.get("id")`
without any null check, so a question object lacking "id" flattens to a
row with a null question id, and that row reaches the written table. -/
theorem null_question_id_persisted :
    ∃ written,
      persistPhase [] none (harvest [pkgSample]
          (fun _ => some [tourSample]) (fun _ => some [questionNoId]))
        = some written
      ∧ written.any (fun r => r.question_id.isNone) = true :=
  ⟨_, rfl, rfl⟩

/-- Every row of a flattened tour takes its question id from some fetched
question object. -/
theorem mem_process_tour {r : FlatRecord} {ti : TourInfo}
    {pkg : PackageInfo} {fq : Nat → Option (List QuestionInfo)}
    (h : r ∈ process_tour ti pkg fq) :
    ∃ tid qs q, fq tid = some qs ∧ q ∈ qs ∧ r.question_id = q.id := by
  unfold process_tour at h
  split at h
  · exact absurd h (List.not_mem_nil r)
  · exact absurd h (List.not_mem_nil r)
  · split at h
    · exact absurd h (List.not_mem_nil r)
    · rename_i qs hfq
      obtain ⟨q, hq, hrq⟩ := List.mem_map.mp h
      exact ⟨_, qs, q, hfq, hq, by rw [← hrq]⟩

/-- Every row of the harvest takes its question id from some fetched
question object. -/
theorem mem_harvest {r : FlatRecord} {pkgs : List PackageInfo}
    {ft : Nat → Option (List TourInfo)}
    {fq : Nat → Option (List QuestionInfo)}
    (h : r ∈ harvest pkgs ft fq) :
    ∃ tid qs q, fq tid = some qs ∧ q ∈ qs ∧ r.question_id = q.id := by
  unfold harvest at h
  obtain ⟨p, hp, hr⟩ := List.mem_flatMap.mp h
  unfold process_package at hr
  split at hr
  · exact absurd hr (List.not_mem_nil r)
  · exact absurd hr (List.not_mem_nil r)
  · split at hr
    · exact absurd hr (List.not_mem_nil r)
    · obtain ⟨t, ht, hrt⟩ := List.mem_flatMap.mp hr
      exact mem_process_tour hrt

/-- Merged rows come from the concatenation being merged. -/
theorem mem_mergeTables {r : FlatRecord} {P N : List FlatRecord}
    (h : r ∈ mergeTables P N) : r ∈ P ++ N := by
  unfold mergeTables at h
  exact mem_dedupKeepLast ((List.perm_insertionSort recGe _).mem_iff.mp h)

/-- C6 (amended): every row of the written table has a non-null question
id, provided every question object delivered by the detail fetches carries
an id and every row of the prior table has one; the flattener itself never
drops or nulls an id.  Without the proviso on the fetched payloads a null
question id is persisted — see the counterexample. -/
theorem persisted_ids_nonnull
    (dfExisting : List FlatRecord) (lastPlayedAt : Option String)
    (pkgs : List PackageInfo)
    (ft : Nat → Option (List TourInfo))
    (fq : Nat → Option (List QuestionInfo))
    (hq : ∀ tid qs, fq tid = some qs → ∀ q ∈ qs, q.id ≠ none)
    (hP : ∀ r ∈ dfExisting, r.question_id ≠ none)
    (written : List FlatRecord)
    (hw : persistPhase dfExisting lastPlayedAt (harvest pkgs ft fq)
        = some written) :
    written.all (fun r => !r.question_id.isNone) = true := by
  apply List.all_eq_true.mpr
  intro r hr
  have hrn : r.question_id ≠ none := by
    unfold persistPhase at hw
    by_cases he : (harvest pkgs ft fq).isEmpty = true
    · rw [if_pos he] at hw
      exact absurd hw (by simp)
    · rw [if_neg he] at hw
      have hw' := Option.some.inj hw
      cases lastPlayedAt with
      | some s =>
        have hw2 : mergeTables dfExisting (harvest pkgs ft fq) = written :=
          hw'
        have hmem : r ∈ dfExisting ++ harvest pkgs ft fq :=
          mem_mergeTables (by rw [hw2]; exact hr)
        rcases List.mem_append.mp hmem with hm | hm
        · exact hP r hm
        · obtain ⟨tid, qs, q, hfq, hqm, hrq⟩ := mem_harvest hm
          rw [hrq]
          exact hq tid qs hfq q hqm
      | none =>
        have hw2 : mergeTables [] (harvest pkgs ft fq) = written := hw'
        have hmem : r ∈ ([] : List FlatRecord) ++ harvest pkgs ft fq :=
          mem_mergeTables (by rw [hw2]; exact hr)
        rcases List.mem_append.mp hmem with hm | hm
        · exact absurd hm (List.not_mem_nil r)
        · obtain ⟨tid, qs, q, hfq, hqm, hrq⟩ := mem_harvest hm
          rw [hrq]
          exact hq tid qs hfq q hqm
  cases hqid : r.question_id with
  | none => exact absurd hqid hrn
  | some v => simp

/-- Witness for `persisted_ids_nonnull`: one package, one tour, one
question that carries id 11; the written table passes the all-ids-present
check. -/
theorem persisted_ids_nonnull_witness :
    ((persistPhase [] none (harvest [pkgSample]
        (fun _ => some [tourSample])
        (fun _ => some [questionWithId]))).getD []).all
      (fun r => !r.question_id.isNone) = true := by
  have h := persisted_ids_nonnull [] none [pkgSample]
    (fun _ => some [tourSample]) (fun _ => some [questionWithId])
    (fun tid qs hqs q hqm => by
      cases hqs
      have hq1 : q = questionWithId := by simpa using hqm
      subst hq1
      simp [questionWithId])
    (fun r hr => absurd hr (List.not_mem_nil r))
    _ rfl
  exact h

end Chgk
